import Mathlib

/-!
Shallow embedding of pyod's SO_GAAL detector (src/pyod/models/so_gaal.py).

Tensors are lists of real numbers (a matrix is a list of rows).  The two
networks (`Generator`, `Discriminator`) are embedded as pure forward
computations returning `Except` to model torch's runtime shape errors.
The training loop of `SO_GAAL.fit` is embedded as an explicit state
machine over a state record; the autograd/optimizer machinery (SGD with
momentum, backprop) is kept abstract via a record of update functions,
exactly as the surrounding framework supplies it, while control flow,
history bookkeeping, the `stop` flag and the `trick_labels` variable are
modelled concretely from the source.
-/

namespace SoGaal

/-- Errors surfaced by the embedded code paths of `so_gaal.py`. -/
inductive PyErr where
  | invalidInput
  | notFitted
  | matmulShape
  | shapeMismatch
  | nameError
  deriving DecidableEq, Repr

/-- Dot product of two rows, truncating to the shorter one. -/
def dot (r x : List ℝ) : ℝ := (List.zipWith (· * ·) r x).sum

/-- Embedding of `nn.Linear` applied to one input row: torch raises a
runtime shape error when the input dimension does not match the weight
matrix's row length (`mat1 and mat2 shapes cannot be multiplied`). -/
def linear (W : List (List ℝ)) (b : List ℝ) (x : List ℝ) : Except PyErr (List ℝ) :=
  if W.all (fun row => row.length == x.length) then
    .ok (List.zipWith (fun row bi => dot row x + bi) W b)
  else .error .matmulShape

/-- Embedding of `F.relu` applied elementwise. -/
def reluV (x : List ℝ) : List ℝ := x.map (fun t => max t 0)

/-- Embedding of `torch.sigmoid`. -/
noncomputable def sigmoid (t : ℝ) : ℝ := 1 / (1 + Real.exp (-t))

/-- Parameters of `Generator`: `layer1`, `layer2` weights and biases. -/
structure GenParams where
  W1 : List (List ℝ)
  b1 : List ℝ
  W2 : List (List ℝ)
  b2 : List ℝ

/-- Parameters of `Discriminator`: `layer1`, `layer2` weights and biases. -/
structure DiscParams where
  W1 : List (List ℝ)
  b1 : List ℝ
  W2 : List (List ℝ)
  b2 : List ℝ

/-- Sequence the embedded forward computation over the rows of a batch;
an error on any row is the error of the whole batched call. -/
def mapE {β γ : Type} (f : β → Except PyErr γ) : List β → Except PyErr (List γ)
  | [] => .ok []
  | b :: bs =>
    match f b with
    | .error e => .error e
    | .ok c =>
      match mapE f bs with
      | .error e => .error e
      | .ok cs => .ok (c :: cs)

/-- Generator.forward on one row: `relu(layer2(relu(layer1(x))))`. -/
def Generator.forward (p : GenParams) (x : List ℝ) : Except PyErr (List ℝ) :=
  match linear p.W1 p.b1 x with
  | .error e => .error e
  | .ok h1 =>
    match linear p.W2 p.b2 (reluV h1) with
    | .error e => .error e
    | .ok h2 => .ok (reluV h2)

/-- Generator.forward over a whole batch (matrix input). -/
def Generator.forwardBatch (p : GenParams) (X : List (List ℝ)) :
    Except PyErr (List (List ℝ)) :=
  mapE (Generator.forward p) X

/-- Discriminator.forward on one row: `sigmoid(layer2(relu(layer1(x))))`. -/
noncomputable def Discriminator.forward (p : DiscParams) (x : List ℝ) :
    Except PyErr (List ℝ) :=
  match linear p.W1 p.b1 x with
  | .error e => .error e
  | .ok h1 =>
    match linear p.W2 p.b2 (reluV h1) with
    | .error e => .error e
    | .ok h2 => .ok (h2.map sigmoid)

/-- Discriminator.forward over a whole batch (matrix input), shape
`(batch, 1)` on success. -/
noncomputable def Discriminator.forwardBatch (p : DiscParams) (X : List (List ℝ)) :
    Except PyErr (List (List ℝ)) :=
  mapE (Discriminator.forward p) X

/-- Computable value of `math.ceil(math.sqrt n)` on a natural number. -/
def ceilSqrt (n : ℕ) : ℕ :=
  if Nat.sqrt n * Nat.sqrt n = n then Nat.sqrt n else Nat.sqrt n + 1

/-- Shapes produced by `Discriminator.__init__(latent_size, data_size)`:
`layer1 = Linear(d, h)` and `layer2 = Linear(h, 1)` where the caller
passes `h = ceil(sqrt(data_size))`. -/
def wfDisc (d h : ℕ) (p : DiscParams) : Prop :=
  p.W1.length = h ∧ (∀ row ∈ p.W1, row.length = d) ∧ p.b1.length = h ∧
  p.W2.length = 1 ∧ (∀ row ∈ p.W2, row.length = h) ∧ p.b2.length = 1

instance (d h : ℕ) (p : DiscParams) : Decidable (wfDisc d h p) := by
  unfold wfDisc; infer_instance

/-- The identity matrix written by `nn.init.eye_` on a `d × d` weight. -/
def idMat (d : ℕ) : List (List ℝ) :=
  (List.range d).map (fun i => (List.range d).map (fun j => if i = j then 1 else 0))

/-- Observable autograd/optimizer calls made by one batch of the training
loop in `SO_GAAL.fit` (lines 152-193 of `so_gaal.py`). -/
inductive TEvent where
  | dBackward
  | dStepped
  | dAppend
  | gBackward
  | gStepped
  | gAppend
  deriving DecidableEq, Repr

/-- Events of a growing-phase batch (`stop == 0` branch):
`d_loss.backward(); optimizer_d.step()`, append of the discriminator
loss, then `g_loss.backward(); optimizer_g.step()` and append of the
generator loss. -/
def growEvents : List TEvent :=
  [.dBackward, .dStepped, .dAppend, .gBackward, .gStepped, .gAppend]

/-- Events of a frozen-phase batch (`else` branch) whose size matches the
leftover `trick_labels` tensor: the discriminator is still trained and
both losses are recorded, but no backward pass or step runs for the
generator loss. -/
def frozenOkEvents : List TEvent :=
  [.dBackward, .dStepped, .dAppend, .gAppend]

/-- Events of a frozen-phase batch on which the `g_loss` computation
raises before the generator loss is appended. -/
def frozenErrEvents : List TEvent :=
  [.dBackward, .dStepped, .dAppend]

/-- The framework capabilities `fit` relies on, kept abstract: one
discriminator SGD-with-momentum update per batch, one generator update,
and the two scalar loss values (`d_loss.item()`, `g_loss.item()`).
Arguments are the epoch index, the batch index within the epoch, the
optimizer state paired with the parameters, the other network's
parameters and the batch; the loss functions receive the discriminator
and generator parameters in force when the loss is computed. -/
structure TorchOps (α GP DP OG OD L : Type) where
  dUpdate : ℕ → ℕ → OD × DP → GP → List α → OD × DP
  gUpdate : ℕ → ℕ → OG × GP → DP → List α → OG × GP
  dLossVal : ℕ → ℕ → DP → GP → List α → L
  gLossVal : ℕ → ℕ → DP → GP → List α → L

/-- Mutable state of one `fit` call: the `stop` flag, both networks with
their optimizer states, the two `train_history` sequences, the size of
the tensor currently bound to the Python local `trick_labels` (none
before its first binding), and the trace of autograd events tagged with
`(epoch, batch index)`. -/
structure TState (GP DP OG OD L : Type) where
  stopFlag : Bool
  gen : GP
  genOpt : OG
  disc : DP
  discOpt : OD
  dHist : List L
  gHist : List L
  trickSize : Option ℕ
  trace : List (ℕ × ℕ × List TEvent)

variable {α GP DP OG OD L : Type}

/-- One iteration of `for data_batch in dataloader` (lines 152-193).
The discriminator is always trained (lines 156-175).  If `stop == 0` the
generator is trained and `trick_labels` rebound to a fresh all-ones
tensor of the current batch size (lines 177-188).  Otherwise the
generator loss is computed against the leftover `trick_labels` tensor:
`nn.BCELoss` raises when its size differs from the current batch size,
and Python raises a `NameError` were `trick_labels` still unbound. -/
def processBatch (ops : TorchOps α GP DP OG OD L) (e bi : ℕ)
    (st : TState GP DP OG OD L) (batch : List α) :
    TState GP DP OG OD L × Option PyErr :=
  let b := batch.length
  let dl := ops.dLossVal e bi st.disc st.gen batch
  let du := ops.dUpdate e bi (st.discOpt, st.disc) st.gen batch
  let st1 : TState GP DP OG OD L :=
    { st with disc := du.2, discOpt := du.1, dHist := st.dHist ++ [dl] }
  if st.stopFlag = false then
    let gl := ops.gLossVal e bi du.2 st1.gen batch
    let gu := ops.gUpdate e bi (st1.genOpt, st1.gen) du.2 batch
    let st2 : TState GP DP OG OD L :=
      { st1 with
        gen := gu.2
        genOpt := gu.1
        gHist := st1.gHist ++ [gl]
        trickSize := some b
        trace := st1.trace ++ [(e, bi, growEvents)] }
    (st2, none)
  else
    match st.trickSize with
    | none =>
      ({ st1 with trace := st1.trace ++ [(e, bi, frozenErrEvents)] }, some .nameError)
    | some t =>
      if b = t then
        let gl := ops.gLossVal e bi du.2 st1.gen batch
        let st2 : TState GP DP OG OD L :=
          { st1 with
            gHist := st1.gHist ++ [gl]
            trace := st1.trace ++ [(e, bi, frozenOkEvents)] }
        (st2, none)
      else
        ({ st1 with trace := st1.trace ++ [(e, bi, frozenErrEvents)] }, some .shapeMismatch)

/-- Run the remaining batches of epoch `e`, stopping at the first raised
exception. -/
def runBatches (ops : TorchOps α GP DP OG OD L) (e : ℕ) :
    ℕ → TState GP DP OG OD L → List (List α) → TState GP DP OG OD L × Option PyErr
  | _, st, [] => (st, none)
  | bi, st, batch :: rest =>
    match processBatch ops e bi st batch with
    | (st1, none) => runBatches ops e (bi + 1) st1 rest
    | (st1, some err) => (st1, some err)

/-- One iteration of `for epoch in range(epochs)`: run the batches, then
`if epoch + 1 > self.stop_epochs: stop = 1` (lines 149-196). -/
def runEpoch (ops : TorchOps α GP DP OG OD L) (stopEpochs e : ℕ)
    (st : TState GP DP OG OD L) (batches : List (List α)) :
    TState GP DP OG OD L × Option PyErr :=
  match runBatches ops e 0 st batches with
  | (st1, none) =>
    ({ st1 with stopFlag := st1.stopFlag || decide (stopEpochs < e + 1) }, none)
  | (st1, some err) => (st1, some err)

/-- Run the first `k` epochs from a given state; a raised exception
aborts the remaining epochs. -/
def runUpTo (ops : TorchOps α GP DP OG OD L) (stopEpochs : ℕ)
    (epochBatches : ℕ → List (List α)) (st0 : TState GP DP OG OD L) :
    ℕ → TState GP DP OG OD L × Option PyErr
  | 0 => (st0, none)
  | k + 1 =>
    match runUpTo ops stopEpochs epochBatches st0 k with
    | (st, none) => runEpoch ops stopEpochs k st (epochBatches k)
    | (st, some err) => (st, some err)

/-- State at the start of `fit`'s training loop: `stop = 0`, empty
`train_history`, `trick_labels` unbound, freshly initialised networks. -/
def initState (g0 : GP) (og0 : OG) (d0 : DP) (od0 : OD) : TState GP DP OG OD L :=
  ⟨false, g0, og0, d0, od0, [], [], none, []⟩

/-- The whole training loop of `fit`: `epochs = stop_epochs * 3` epochs
over the shuffled batches delivered by the `DataLoader` (`epochBatches e`
is the batch list the loader yields in epoch `e`). -/
def fitTrain (ops : TorchOps α GP DP OG OD L) (stopEpochs : ℕ)
    (epochBatches : ℕ → List (List α)) (g0 : GP) (og0 : OG) (d0 : DP) (od0 : OD) :
    TState GP DP OG OD L × Option PyErr :=
  runUpTo ops stopEpochs epochBatches (initState g0 og0 d0 od0) (stopEpochs * 3)

/-- Sizes of the batches a `DataLoader(..., batch_size = bs, shuffle =
True)` yields per epoch over `n` samples (`drop_last` defaults to
`False`): `n / bs` full batches followed by one remainder batch. -/
def chunkSizes (n bs : ℕ) : List ℕ :=
  List.replicate (n / bs) bs ++ (if n % bs = 0 then [] else [n % bs])

/-- Embedding of `sklearn.utils.check_array` on a dense matrix: at least
one sample, rectangular rows, at least one feature.  It knows nothing of
the dimensionality of any earlier training data. -/
def checkArray (X : List (List ℝ)) : Bool :=
  match X with
  | [] => false
  | x0 :: rest =>
    (0 < x0.length : Bool) && rest.all (fun row => row.length == x0.length)

/-- Final scoring pass shared by `fit` (lines 198-199) and
`decision_function` (lines 223-224): one Discriminator forward over the
whole matrix, then `.ravel()`. -/
noncomputable def discRavel (p : DiscParams) (X : List (List ℝ)) :
    Except PyErr (List ℝ) :=
  match Discriminator.forwardBatch p X with
  | .error e => .error e
  | .ok rows => .ok rows.flatten

/-- Embedding of `SO_GAAL.fit`: `check_array`, run the training loop,
then store `decision_scores_` from one Discriminator forward pass over
the whole input.  Returns the stored score vector together with the
trained discriminator (the part of the fitted state `decision_function`
uses). -/
noncomputable def fitModel (ops : TorchOps (List ℝ) GenParams DiscParams OG OD ℝ)
    (stopEpochs : ℕ) (epochBatches : ℕ → List (List (List ℝ)))
    (g0 : GenParams) (og0 : OG) (d0 : DiscParams) (od0 : OD)
    (X : List (List ℝ)) : Except PyErr (List ℝ × DiscParams) :=
  if checkArray X then
    match fitTrain ops stopEpochs epochBatches g0 og0 d0 od0 with
    | (_, some err) => .error err
    | (st, none) =>
      match discRavel st.disc X with
      | .error e => .error e
      | .ok scores => .ok (scores, st.disc)
  else .error .invalidInput

/-- Embedding of `SO_GAAL.decision_function`: `check_is_fitted(self,
['discriminator'])`, then `check_array(X)`, then one Discriminator
forward pass and `.ravel()`.  The argument is the detector's
`discriminator` attribute: `none` when the attribute is absent, i.e.
when no `fit` call has ever reached the `Discriminator(...)` assignment
at line 135; `some p` when it is set.  `fit` performs that assignment
before its training loop, so the attribute is set — holding the
parameters as trained so far — even after a `fit` call that aborted
mid-training without succeeding. -/
noncomputable def decision_function (disc : Option DiscParams)
    (X : List (List ℝ)) : Except PyErr (List ℝ) :=
  match disc with
  | none => .error .notFitted
  | some p =>
    if checkArray X then discRavel p X else .error .invalidInput

/-- The `discriminator` attribute after a `fit` call that passed
`check_array`: line 135 assigns `self.discriminator = Discriminator(...)`
before the training loop, so the attribute is set whether or not the call
completes, and after a mid-training abort it holds the parameters as
trained up to the abort. -/
def discAfterFit {OG OD : Type}
    (ops : TorchOps (List ℝ) GenParams DiscParams OG OD ℝ) (stopEpochs : ℕ)
    (epochBatches : ℕ → List (List (List ℝ)))
    (g0 : GenParams) (og0 : OG) (d0 : DiscParams) (od0 : OD) : DiscParams :=
  (fitTrain ops stopEpochs epochBatches g0 og0 d0 od0).1.disc

/-! Per-batch facts about `processBatch`, read off the three branches of
the loop body. -/

theorem processBatch_stopFlag (ops : TorchOps α GP DP OG OD L) (e bi : ℕ)
    (st : TState GP DP OG OD L) (batch : List α) :
    (processBatch ops e bi st batch).1.stopFlag = st.stopFlag := by
  by_cases hs : st.stopFlag = false
  · simp [processBatch, hs]
  · simp only [processBatch, if_neg hs]
    cases st.trickSize with
    | none => simp
    | some t => by_cases hb : batch.length = t <;> simp [hb]

theorem processBatch_grow (ops : TorchOps α GP DP OG OD L) (e bi : ℕ)
    (st : TState GP DP OG OD L) (batch : List α) (hs : st.stopFlag = false) :
    (processBatch ops e bi st batch).2 = none ∧
    (processBatch ops e bi st batch).1.trickSize = some batch.length ∧
    (processBatch ops e bi st batch).1.trace = st.trace ++ [(e, bi, growEvents)] ∧
    (processBatch ops e bi st batch).1.dHist
      = st.dHist ++ [ops.dLossVal e bi st.disc st.gen batch] ∧
    (processBatch ops e bi st batch).1.gHist
      = st.gHist ++ [ops.gLossVal e bi
          (ops.dUpdate e bi (st.discOpt, st.disc) st.gen batch).2 st.gen batch] := by
  simp [processBatch, hs]

theorem processBatch_frozen_gen (ops : TorchOps α GP DP OG OD L) (e bi : ℕ)
    (st : TState GP DP OG OD L) (batch : List α) (hs : st.stopFlag = true) :
    (processBatch ops e bi st batch).1.gen = st.gen ∧
    (processBatch ops e bi st batch).1.genOpt = st.genOpt := by
  simp only [processBatch, hs]
  cases st.trickSize with
  | none => simp
  | some t => by_cases hb : batch.length = t <;> simp [hb]

theorem processBatch_frozen_ok (ops : TorchOps α GP DP OG OD L) (e bi : ℕ)
    (st : TState GP DP OG OD L) (batch : List α) (hs : st.stopFlag = true)
    (ht : st.trickSize = some batch.length) :
    (processBatch ops e bi st batch).2 = none ∧
    (processBatch ops e bi st batch).1.gen = st.gen ∧
    (processBatch ops e bi st batch).1.genOpt = st.genOpt ∧
    (processBatch ops e bi st batch).1.disc
      = (ops.dUpdate e bi (st.discOpt, st.disc) st.gen batch).2 ∧
    (processBatch ops e bi st batch).1.dHist
      = st.dHist ++ [ops.dLossVal e bi st.disc st.gen batch] ∧
    (processBatch ops e bi st batch).1.gHist
      = st.gHist ++ [ops.gLossVal e bi
          (ops.dUpdate e bi (st.discOpt, st.disc) st.gen batch).2 st.gen batch] ∧
    (processBatch ops e bi st batch).1.trickSize = st.trickSize ∧
    (processBatch ops e bi st batch).1.trace
      = st.trace ++ [(e, bi, frozenOkEvents)] := by
  simp [processBatch, hs, ht]

theorem processBatch_frozen_mismatch (ops : TorchOps α GP DP OG OD L) (e bi : ℕ)
    (st : TState GP DP OG OD L) (batch : List α) (hs : st.stopFlag = true)
    (t : ℕ) (ht : st.trickSize = some t) (hb : batch.length ≠ t) :
    (processBatch ops e bi st batch).2 = some .shapeMismatch ∧
    (processBatch ops e bi st batch).1.trace
      = st.trace ++ [(e, bi, frozenErrEvents)] := by
  simp [processBatch, hs, ht, hb]

theorem processBatch_hist_ok (ops : TorchOps α GP DP OG OD L) (e bi : ℕ)
    (st : TState GP DP OG OD L) (batch : List α)
    (hok : (processBatch ops e bi st batch).2 = none) :
    (processBatch ops e bi st batch).1.dHist.length = st.dHist.length + 1 ∧
    (processBatch ops e bi st batch).1.gHist.length = st.gHist.length + 1 := by
  by_cases hs : st.stopFlag = false
  · simp [processBatch, hs]
  · simp only [processBatch, if_neg hs] at hok ⊢
    cases ht : st.trickSize with
    | none => simp [ht] at hok
    | some t =>
      by_cases hb : batch.length = t
      · simp [ht, hb]
      · simp [ht, hb] at hok

/-! Facts about a whole batch loop (`runBatches`). -/

theorem runBatches_stopFlag (ops : TorchOps α GP DP OG OD L) (e : ℕ) :
    ∀ (bs : List (List α)) (bi : ℕ) (st : TState GP DP OG OD L),
      (runBatches ops e bi st bs).1.stopFlag = st.stopFlag := by
  intro bs
  induction bs with
  | nil => intro bi st; simp [runBatches]
  | cons b rest ih =>
    intro bi st
    have hpf := processBatch_stopFlag ops e bi st b
    simp only [runBatches]
    cases hpb : processBatch ops e bi st b with
    | mk st1 err =>
      rw [hpb] at hpf
      cases err with
      | none => simpa [ih] using hpf
      | some er => simpa using hpf

theorem runBatches_frozen_gen (ops : TorchOps α GP DP OG OD L) (e : ℕ) :
    ∀ (bs : List (List α)) (bi : ℕ) (st : TState GP DP OG OD L),
      st.stopFlag = true →
      (runBatches ops e bi st bs).1.gen = st.gen ∧
      (runBatches ops e bi st bs).1.genOpt = st.genOpt := by
  intro bs
  induction bs with
  | nil => intro bi st _; simp [runBatches]
  | cons b rest ih =>
    intro bi st hs
    have hpf := processBatch_frozen_gen ops e bi st b hs
    have hsf := processBatch_stopFlag ops e bi st b
    simp only [runBatches]
    cases hpb : processBatch ops e bi st b with
    | mk st1 err =>
      rw [hpb] at hpf hsf
      cases err with
      | none =>
        have h1 : st1.stopFlag = true := by rw [hsf]; exact hs
        have := ih (bi + 1) st1 h1
        simp only [this.1, this.2]
        exact ⟨hpf.1, hpf.2⟩
      | some er => exact ⟨hpf.1, hpf.2⟩

theorem processBatch_trace (ops : TorchOps α GP DP OG OD L) (e bi : ℕ)
    (st : TState GP DP OG OD L) (batch : List α) :
    ∃ evs, (processBatch ops e bi st batch).1.trace = st.trace ++ [(e, bi, evs)] ∧
      ((st.stopFlag = false ∧ evs = growEvents) ∨
       (st.stopFlag = true ∧ (evs = frozenOkEvents ∨ evs = frozenErrEvents))) := by
  by_cases hs : st.stopFlag = false
  · exact ⟨growEvents, by simp [processBatch, hs], Or.inl ⟨hs, rfl⟩⟩
  · have hs' : st.stopFlag = true := by
      cases h : st.stopFlag
      · exact absurd h hs
      · rfl
    simp only [processBatch, if_neg hs]
    cases ht : st.trickSize with
    | none => exact ⟨frozenErrEvents, by simp, Or.inr ⟨hs', Or.inr rfl⟩⟩
    | some t =>
      by_cases hb : batch.length = t
      · exact ⟨frozenOkEvents, by simp [hb], Or.inr ⟨hs', Or.inl rfl⟩⟩
      · exact ⟨frozenErrEvents, by simp [hb], Or.inr ⟨hs', Or.inr rfl⟩⟩

/-- Phase discipline of one recorded batch, as the code enforces it: for
an epoch index at most `stop_epochs` the full growing-phase event list is
observed (both networks stepped), and for a strictly larger epoch index
the generator is neither back-propagated nor stepped while the
discriminator still is. -/
def entryPhaseOK (stopEpochs : ℕ) (entry : ℕ × ℕ × List TEvent) : Prop :=
  (entry.1 ≤ stopEpochs → entry.2.2 = growEvents) ∧
  (stopEpochs < entry.1 →
    TEvent.gStepped ∉ entry.2.2 ∧ TEvent.gBackward ∉ entry.2.2 ∧
    TEvent.dStepped ∈ entry.2.2)

theorem runBatches_trace_inv (ops : TorchOps α GP DP OG OD L) (stopEpochs e : ℕ) :
    ∀ (bs : List (List α)) (bi : ℕ) (st : TState GP DP OG OD L),
      st.stopFlag = decide (stopEpochs < e) →
      (∀ x ∈ st.trace, entryPhaseOK stopEpochs x) →
      ∀ x ∈ (runBatches ops e bi st bs).1.trace, entryPhaseOK stopEpochs x := by
  intro bs
  induction bs with
  | nil => intro bi st _ hall; simpa [runBatches] using hall
  | cons b rest ih =>
    intro bi st hs hall
    obtain ⟨evs, htr, hcase⟩ := processBatch_trace ops e bi st b
    have hsf := processBatch_stopFlag ops e bi st b
    have hnew : entryPhaseOK stopEpochs (e, bi, evs) := by
      rcases hcase with ⟨hfalse, hevs⟩ | ⟨htrue, hevs⟩
      · rw [hfalse] at hs
        have hle : e ≤ stopEpochs := by
          by_contra hlt
          simp [Nat.lt_of_not_le hlt] at hs
        subst hevs
        exact ⟨fun _ => rfl, fun h => absurd h (Nat.not_lt.mpr hle)⟩
      · rw [htrue] at hs
        have hlt : stopEpochs < e := of_decide_eq_true hs.symm
        refine ⟨fun h => absurd hlt (Nat.not_lt.mpr h), fun _ => ?_⟩
        rcases hevs with h1 | h1 <;> subst h1
        · exact ⟨(by decide : TEvent.gStepped ∉ frozenOkEvents),
                 (by decide : TEvent.gBackward ∉ frozenOkEvents),
                 (by decide : TEvent.dStepped ∈ frozenOkEvents)⟩
        · exact ⟨(by decide : TEvent.gStepped ∉ frozenErrEvents),
                 (by decide : TEvent.gBackward ∉ frozenErrEvents),
                 (by decide : TEvent.dStepped ∈ frozenErrEvents)⟩
    have hall1 : ∀ x ∈ (processBatch ops e bi st b).1.trace, entryPhaseOK stopEpochs x := by
      rw [htr]
      intro x hx
      rcases List.mem_append.mp hx with hx | hx
      · exact hall x hx
      · rcases List.mem_singleton.mp hx with rfl
        exact hnew
    simp only [runBatches]
    cases hpb : processBatch ops e bi st b with
    | mk st1 err =>
      rw [hpb] at hall1 hsf
      cases err with
      | none =>
        exact ih (bi + 1) st1 (by rw [hsf]; exact hs) hall1
      | some er => exact hall1

/-! Facts about whole epochs and epoch prefixes. -/

theorem runEpoch_trace_inv (ops : TorchOps α GP DP OG OD L) (stopEpochs e : ℕ)
    (st : TState GP DP OG OD L) (batches : List (List α))
    (hs : st.stopFlag = decide (stopEpochs < e))
    (hall : ∀ x ∈ st.trace, entryPhaseOK stopEpochs x) :
    ∀ x ∈ (runEpoch ops stopEpochs e st batches).1.trace, entryPhaseOK stopEpochs x := by
  have h := runBatches_trace_inv ops stopEpochs e batches 0 st hs hall
  simp only [runEpoch]
  cases hrb : runBatches ops e 0 st batches with
  | mk st1 err =>
    rw [hrb] at h
    cases err with
    | none => simpa using h
    | some er => exact h

theorem runEpoch_frozen_gen (ops : TorchOps α GP DP OG OD L) (stopEpochs e : ℕ)
    (st : TState GP DP OG OD L) (batches : List (List α))
    (hs : st.stopFlag = true) :
    (runEpoch ops stopEpochs e st batches).1.gen = st.gen := by
  have h := runBatches_frozen_gen ops e batches 0 st hs
  simp only [runEpoch]
  cases hrb : runBatches ops e 0 st batches with
  | mk st1 err =>
    rw [hrb] at h
    cases err with
    | none => simpa using h.1
    | some er => exact h.1

theorem runEpoch_stopFlag_ok (ops : TorchOps α GP DP OG OD L) (stopEpochs e : ℕ)
    (st : TState GP DP OG OD L) (batches : List (List α))
    (hok : (runEpoch ops stopEpochs e st batches).2 = none) :
    (runEpoch ops stopEpochs e st batches).1.stopFlag
      = (st.stopFlag || decide (stopEpochs < e + 1)) := by
  have h := runBatches_stopFlag ops e batches 0 st
  simp only [runEpoch] at hok ⊢
  cases hrb : runBatches ops e 0 st batches with
  | mk st1 err =>
    rw [hrb] at h
    cases err with
    | none =>
      have h' : st1.stopFlag = st.stopFlag := h
      simp [h']
    | some er => rw [hrb] at hok; simp at hok

theorem runUpTo_ok_of_succ (ops : TorchOps α GP DP OG OD L) (stopEpochs : ℕ)
    (epochBatches : ℕ → List (List α)) (st0 : TState GP DP OG OD L) (k : ℕ)
    (hok : (runUpTo ops stopEpochs epochBatches st0 (k + 1)).2 = none) :
    (runUpTo ops stopEpochs epochBatches st0 k).2 = none := by
  simp only [runUpTo] at hok
  cases hr : runUpTo ops stopEpochs epochBatches st0 k with
  | mk st err =>
    cases err with
    | none => rfl
    | some er => rw [hr] at hok; simp at hok

theorem runUpTo_err_le (ops : TorchOps α GP DP OG OD L) (stopEpochs : ℕ)
    (epochBatches : ℕ → List (List α)) (st0 : TState GP DP OG OD L)
    (k : ℕ) (err : PyErr)
    (herr : (runUpTo ops stopEpochs epochBatches st0 k).2 = some err) :
    ∀ m, k ≤ m →
      (runUpTo ops stopEpochs epochBatches st0 m).2 = some err ∧
      (runUpTo ops stopEpochs epochBatches st0 m).1
        = (runUpTo ops stopEpochs epochBatches st0 k).1 := by
  intro m hm
  induction m with
  | zero =>
    have : k = 0 := Nat.le_zero.mp hm
    subst this
    exact ⟨herr, rfl⟩
  | succ m ih =>
    rcases Nat.lt_or_ge k (m + 1) with hlt | hge
    · have hkm : k ≤ m := Nat.lt_succ_iff.mp hlt
      obtain ⟨h1, h2⟩ := ih hkm
      simp only [runUpTo]
      cases hr : runUpTo ops stopEpochs epochBatches st0 m with
      | mk st e2 =>
        rw [hr] at h1 h2
        simp only at h1 h2
        cases e2 with
        | none => simp at h1
        | some er2 =>
          cases h1
          exact ⟨by simp, by simpa using h2⟩
    · have : m + 1 = k := Nat.le_antisymm hge hm
      subst this
      exact ⟨herr, rfl⟩

theorem runUpTo_stopFlag (ops : TorchOps α GP DP OG OD L) (stopEpochs : ℕ)
    (epochBatches : ℕ → List (List α)) (g0 : GP) (og0 : OG) (d0 : DP) (od0 : OD) :
    ∀ k, (runUpTo ops stopEpochs epochBatches
            (initState g0 og0 d0 od0 (L := L)) k).2 = none →
      (runUpTo ops stopEpochs epochBatches
          (initState g0 og0 d0 od0 (L := L)) k).1.stopFlag
        = decide (stopEpochs < k) := by
  intro k
  induction k with
  | zero => intro _; simp [runUpTo, initState]
  | succ k ih =>
    intro hok
    have hk := runUpTo_ok_of_succ ops stopEpochs epochBatches _ k hok
    have hflag := ih hk
    simp only [runUpTo] at hok ⊢
    cases hr : runUpTo ops stopEpochs epochBatches
        (initState g0 og0 d0 od0 (L := L)) k with
    | mk st err =>
      rw [hr] at hk hflag hok
      simp only at hk hflag
      cases err with
      | none =>
        simp only
        have h2 := runEpoch_stopFlag_ok ops stopEpochs k st (epochBatches k)
          (by simpa using hok)
        rw [h2, hflag]
        rcases Nat.lt_or_ge stopEpochs k with h | h
        · simp [h, Nat.lt_succ_of_lt h]
        · simp [Nat.not_lt.mpr h]
      | some er => simp at hk

theorem runUpTo_trace_inv (ops : TorchOps α GP DP OG OD L) (stopEpochs : ℕ)
    (epochBatches : ℕ → List (List α)) (g0 : GP) (og0 : OG) (d0 : DP) (od0 : OD) :
    ∀ k, ∀ x ∈ (runUpTo ops stopEpochs epochBatches
        (initState g0 og0 d0 od0 (L := L)) k).1.trace,
      entryPhaseOK stopEpochs x := by
  intro k
  induction k with
  | zero => intro x hx; simp [runUpTo, initState] at hx
  | succ k ih =>
    simp only [runUpTo]
    cases hr : runUpTo ops stopEpochs epochBatches
        (initState g0 og0 d0 od0 (L := L)) k with
    | mk st err =>
      rw [hr] at ih
      cases err with
      | some er => exact ih
      | none =>
        have hflag : st.stopFlag = decide (stopEpochs < k) := by
          have h := runUpTo_stopFlag ops stopEpochs epochBatches g0 og0 d0 od0 k
            (by rw [hr])
          rw [hr] at h
          exact h
        exact runEpoch_trace_inv ops stopEpochs k st (epochBatches k) hflag ih

theorem runUpTo_gen_frozen (ops : TorchOps α GP DP OG OD L) (stopEpochs : ℕ)
    (epochBatches : ℕ → List (List α)) (g0 : GP) (og0 : OG) (d0 : DP) (od0 : OD)
    (e : ℕ) (he : stopEpochs ≤ e)
    (hok : (runUpTo ops stopEpochs epochBatches
        (initState g0 og0 d0 od0 (L := L)) (e + 1)).2 = none) :
    (runUpTo ops stopEpochs epochBatches
        (initState g0 og0 d0 od0 (L := L)) (e + 1 + 1)).1.gen
      = (runUpTo ops stopEpochs epochBatches
          (initState g0 og0 d0 od0 (L := L)) (e + 1)).1.gen := by
  have hflag := runUpTo_stopFlag ops stopEpochs epochBatches g0 og0 d0 od0 (e + 1) hok
  have hstep : runUpTo ops stopEpochs epochBatches
      (initState g0 og0 d0 od0 (L := L)) (e + 1 + 1)
    = match runUpTo ops stopEpochs epochBatches
          (initState g0 og0 d0 od0 (L := L)) (e + 1) with
      | (st, none) => runEpoch ops stopEpochs (e + 1) st (epochBatches (e + 1))
      | (st, some err) => (st, some err) := rfl
  rw [hstep]
  cases hr : runUpTo ops stopEpochs epochBatches
      (initState g0 og0 d0 od0 (L := L)) (e + 1) with
  | mk st err =>
    rw [hr] at hok hflag
    cases err with
    | some er => simp at hok
    | none =>
      have hs : st.stopFlag = true := by
        have : st.stopFlag = decide (stopEpochs < e + 1) := hflag
        rw [this]
        simp [Nat.lt_succ_of_le he]
      exact runEpoch_frozen_gen ops stopEpochs (e + 1) st (epochBatches (e + 1)) hs

/-- Claim C1, amended.  The two-phase schedule of `SO_GAAL.fit` keyed on
the `stop` flag: every recorded batch of an epoch with index at most
`stop_epochs` performs gradient updates of both networks (the full
growing-phase event list, which contains both step events), every
recorded batch of an epoch with index strictly greater than `stop_epochs`
steps the Discriminator but neither back-propagates nor steps the
Generator, and Generator parameter snapshots taken at the ends of two
consecutive epochs with index at least `stop_epochs` are identical.
The growing phase thus lasts one epoch longer than the claim's
`index < stop_epochs`, because the code only sets `stop = 1` after an
epoch whose 1-based number exceeds `stop_epochs` has completed. -/
theorem generator_phase_schedule (ops : TorchOps α GP DP OG OD L) (stopEpochs : ℕ)
    (epochBatches : ℕ → List (List α)) (g0 : GP) (og0 : OG) (d0 : DP) (od0 : OD) :
    (∀ x ∈ (fitTrain ops stopEpochs epochBatches g0 og0 d0 od0).1.trace,
        entryPhaseOK stopEpochs x) ∧
    TEvent.gStepped ∈ growEvents ∧ TEvent.dStepped ∈ growEvents ∧
    (∀ e, stopEpochs ≤ e →
      (runUpTo ops stopEpochs epochBatches
          (initState g0 og0 d0 od0 (L := L)) (e + 1)).2 = none →
      (runUpTo ops stopEpochs epochBatches
          (initState g0 og0 d0 od0 (L := L)) (e + 1 + 1)).1.gen
        = (runUpTo ops stopEpochs epochBatches
            (initState g0 og0 d0 od0 (L := L)) (e + 1)).1.gen) := by
  refine ⟨?_, by decide, by decide, ?_⟩
  · exact runUpTo_trace_inv ops stopEpochs epochBatches g0 og0 d0 od0 (stopEpochs * 3)
  · intro e he hok
    exact runUpTo_gen_frozen ops stopEpochs epochBatches g0 og0 d0 od0 e he hok

/-- Concrete instantiation of the abstract framework capabilities used by
the executable witnesses: parameters are counters bumped by each update,
losses and samples carry no information. -/
def unitOps : TorchOps Unit ℕ ℕ Unit Unit Unit where
  dUpdate := fun _ _ p _ _ => (p.1, p.2 + 1)
  gUpdate := fun _ _ p _ _ => (p.1, p.2 + 1)
  dLossVal := fun _ _ _ _ _ => ()
  gLossVal := fun _ _ _ _ _ => ()

/-- One single-sample batch per epoch. -/
def oneBatchEach : ℕ → List (List Unit) := fun _ => [[()]]

/-- Claim C1, counterexample to the claim as stated: with
`stop_epochs = 1` and one one-sample batch per epoch, the batch of epoch
index 1 (which satisfies `index >= stop_epochs`) still performs a
Generator gradient step, because `stop` is only set once `epoch + 1 >
stop_epochs` held at the end of an epoch. -/
theorem generator_phase_schedule_counterexample :
    ¬ (∀ x ∈ (fitTrain unitOps 1 oneBatchEach 0 () 0 ()).1.trace,
        1 ≤ x.1 → TEvent.gStepped ∉ x.2.2) := by decide

/-- Witness for the amended C1 at `stop_epochs = 1`: epochs 1 and 2 are
consecutive frozen-phase epochs and the Generator snapshots at their ends
coincide. -/
theorem generator_phase_schedule_witness :
    (runUpTo unitOps 1 oneBatchEach (initState 0 () 0 ()) (1 + 1)).2 = none ∧
    (runUpTo unitOps 1 oneBatchEach (initState 0 () 0 ()) (1 + 1 + 1)).1.gen
      = (runUpTo unitOps 1 oneBatchEach (initState 0 () 0 ()) (1 + 1)).1.gen :=
  ⟨by decide,
   (generator_phase_schedule unitOps 1 oneBatchEach 0 () 0 ()).2.2.2 1
     (by decide) (by decide)⟩

/-- Claim C2, amended.  For every batch processed with the generator
frozen (`stop == 1`) whose size equals the size of the leftover
`trick_labels` tensor: the Discriminator's parameters are updated by one
gradient step, the Generator's loss is computed and appended to the
training history, but no backward pass runs for the Generator's loss (its
gradients are not computed, rather than computed and discarded), no
generator optimizer step runs, and the Generator's parameter state is
unchanged by the batch. -/
theorem frozen_batch_frame (ops : TorchOps α GP DP OG OD L) (e bi : ℕ)
    (st : TState GP DP OG OD L) (batch : List α)
    (hs : st.stopFlag = true) (ht : st.trickSize = some batch.length) :
    (processBatch ops e bi st batch).2 = none ∧
    (processBatch ops e bi st batch).1.gen = st.gen ∧
    (processBatch ops e bi st batch).1.genOpt = st.genOpt ∧
    (processBatch ops e bi st batch).1.disc
      = (ops.dUpdate e bi (st.discOpt, st.disc) st.gen batch).2 ∧
    (processBatch ops e bi st batch).1.dHist
      = st.dHist ++ [ops.dLossVal e bi st.disc st.gen batch] ∧
    (processBatch ops e bi st batch).1.gHist
      = st.gHist ++ [ops.gLossVal e bi
          (ops.dUpdate e bi (st.discOpt, st.disc) st.gen batch).2 st.gen batch] ∧
    (processBatch ops e bi st batch).1.trace
      = st.trace ++ [(e, bi, frozenOkEvents)] ∧
    TEvent.dStepped ∈ frozenOkEvents ∧ TEvent.gAppend ∈ frozenOkEvents ∧
    TEvent.gBackward ∉ frozenOkEvents ∧ TEvent.gStepped ∉ frozenOkEvents := by
  obtain ⟨h1, h2, h3, h4, h5, h6, h7, h8⟩ :=
    processBatch_frozen_ok ops e bi st batch hs ht
  exact ⟨h1, h2, h3, h4, h5, h6, h8, by decide, by decide, by decide, by decide⟩

/-- Claim C2, counterexample to the claim as stated: in the same concrete
run as for C1, the frozen-phase batch of epoch 2 never performs a
backward pass for the generator loss, so the Generator's gradients are
not computed there at all. -/
theorem frozen_batch_frame_counterexample :
    ¬ (∀ x ∈ (fitTrain unitOps 1 oneBatchEach 0 () 0 ()).1.trace,
        1 ≤ x.1 → TEvent.gBackward ∈ x.2.2) := by decide

/-- Concrete frozen-phase state for the C2 witness: `stop` already set,
`trick_labels` bound to a one-row tensor. -/
def frozenStateEx : TState ℕ ℕ Unit Unit Unit :=
  ⟨true, 5, (), 7, (), [], [], some 1, []⟩

/-- Witness for the amended C2 on a concrete frozen-phase batch. -/
theorem frozen_batch_frame_witness :
    frozenStateEx.stopFlag = true ∧
    frozenStateEx.trickSize = some ([()] : List Unit).length ∧
    (processBatch unitOps 2 0 frozenStateEx [()]).2 = none ∧
    (processBatch unitOps 2 0 frozenStateEx [()]).1.gen = frozenStateEx.gen ∧
    (processBatch unitOps 2 0 frozenStateEx [()]).1.trace
      = frozenStateEx.trace ++ [(2, 0, frozenOkEvents)] :=
  ⟨rfl, rfl,
   (frozen_batch_frame unitOps 2 0 frozenStateEx [()] rfl rfl).1,
   (frozen_batch_frame unitOps 2 0 frozenStateEx [()] rfl rfl).2.1,
   (frozen_batch_frame unitOps 2 0 frozenStateEx [()] rfl rfl).2.2.2.2.2.2.1⟩

/-! Growing-phase runs never raise and leave `trick_labels` bound to a
tensor sized like the last batch; a frozen-phase batch of a different
size raises inside the `g_loss` computation. -/

theorem runBatches_grow (ops : TorchOps α GP DP OG OD L) (e : ℕ) :
    ∀ (bs : List (List α)) (bi : ℕ) (st : TState GP DP OG OD L),
      st.stopFlag = false →
      (runBatches ops e bi st bs).2 = none ∧
      (runBatches ops e bi st bs).1.stopFlag = false ∧
      (runBatches ops e bi st bs).1.trickSize
        = bs.foldl (fun _ b => some b.length) st.trickSize := by
  intro bs
  induction bs with
  | nil => intro bi st hs; simpa [runBatches] using hs
  | cons b rest ih =>
    intro bi st hs
    obtain ⟨h1, h2, _, _, _⟩ := processBatch_grow ops e bi st b hs
    have hsf := processBatch_stopFlag ops e bi st b
    simp only [runBatches]
    cases hpb : processBatch ops e bi st b with
    | mk st1 err =>
      rw [hpb] at h1 h2 hsf
      simp only at h1 h2 hsf
      cases err with
      | some er => simp at h1
      | none =>
        have hs1 : st1.stopFlag = false := by rw [hsf]; exact hs
        have := ih (bi + 1) st1 hs1
        simp [this.1, this.2.1, this.2.2, h2]

theorem runBatches_frozen_first_err (ops : TorchOps α GP DP OG OD L) (e bi : ℕ)
    (st : TState GP DP OG OD L) (b : List α) (rest : List (List α))
    (hs : st.stopFlag = true) (t : ℕ) (ht : st.trickSize = some t)
    (hb : b.length ≠ t) :
    (runBatches ops e bi st (b :: rest)).2 = some PyErr.shapeMismatch := by
  obtain ⟨h1, _⟩ := processBatch_frozen_mismatch ops e bi st b hs t ht hb
  simp only [runBatches]
  cases hpb : processBatch ops e bi st b with
  | mk st1 err =>
    rw [hpb] at h1
    simp only at h1
    cases err with
    | none => simp at h1
    | some er => simpa using h1

theorem runEpoch_grow (ops : TorchOps α GP DP OG OD L) (stopEpochs e : ℕ)
    (st : TState GP DP OG OD L) (batches : List (List α))
    (hs : st.stopFlag = false) :
    (runEpoch ops stopEpochs e st batches).2 = none ∧
    (runEpoch ops stopEpochs e st batches).1.stopFlag
      = decide (stopEpochs < e + 1) ∧
    (runEpoch ops stopEpochs e st batches).1.trickSize
      = batches.foldl (fun _ b => some b.length) st.trickSize := by
  obtain ⟨h1, h2, h3⟩ := runBatches_grow ops e batches 0 st hs
  simp only [runEpoch]
  cases hrb : runBatches ops e 0 st batches with
  | mk st1 err =>
    rw [hrb] at h1 h2 h3
    simp only at h1 h2 h3
    cases err with
    | some er => simp at h1
    | none => simp [h2, h3]

theorem runUpTo_grow_phase (ops : TorchOps α GP DP OG OD L) (stopEpochs : ℕ)
    (epochBatches : ℕ → List (List α)) (g0 : GP) (og0 : OG) (d0 : DP) (od0 : OD)
    (r : ℕ)
    (hlast : ∀ e ≤ stopEpochs, ∀ d : Option ℕ,
      (epochBatches e).foldl (fun _ b => some b.length) d = some r) :
    ∀ k, k ≤ stopEpochs + 1 →
      (runUpTo ops stopEpochs epochBatches
          (initState g0 og0 d0 od0 (L := L)) k).2 = none ∧
      (runUpTo ops stopEpochs epochBatches
          (initState g0 og0 d0 od0 (L := L)) k).1.stopFlag
        = decide (stopEpochs < k) ∧
      (k = 0 ∨ (runUpTo ops stopEpochs epochBatches
          (initState g0 og0 d0 od0 (L := L)) k).1.trickSize = some r) := by
  intro k
  induction k with
  | zero => intro _; exact ⟨rfl, by simp [runUpTo, initState], Or.inl rfl⟩
  | succ k ih =>
    intro hk
    have hk' : k ≤ stopEpochs + 1 := Nat.le_of_succ_le hk
    have hke : k ≤ stopEpochs := Nat.lt_succ_iff.mp (Nat.lt_of_succ_le hk)
    obtain ⟨h1, h2, _⟩ := ih hk'
    simp only [runUpTo]
    cases hr : runUpTo ops stopEpochs epochBatches
        (initState g0 og0 d0 od0 (L := L)) k with
    | mk st err =>
      rw [hr] at h1 h2
      simp only at h1 h2
      cases err with
      | some er => simp at h1
      | none =>
        have hsf : st.stopFlag = false := by
          rw [h2]
          simp [Nat.not_lt.mpr hke]
        obtain ⟨g1, g2, g3⟩ :=
          runEpoch_grow ops stopEpochs k st (epochBatches k) hsf
        refine ⟨g1, g2, Or.inr ?_⟩
        rw [g3]
        exact hlast k hke st.trickSize

/-- Claim C3.  In the frozen-generator phase the generator loss is
computed against the `trick_labels` tensor left bound by the last
growing-phase batch; for `stop_epochs >= 1` and any dataset with more
than 500 samples whose count is not a multiple of 500, the state entering
the first frozen epoch still holds a leftover label tensor of size
`n % 500`, the first frozen-phase batch has size 500, and the `BCELoss`
call raises a size-mismatch error, so `fit` does not complete. -/
theorem stale_trick_labels_abort (ops : TorchOps α GP DP OG OD L)
    (stopEpochs n : ℕ) (epochBatches : ℕ → List (List α))
    (g0 : GP) (og0 : OG) (d0 : DP) (od0 : OD)
    (hs1 : 1 ≤ stopEpochs) (hn : 500 < n) (hrm : n % 500 ≠ 0)
    (hsizes : ∀ e < stopEpochs * 3,
      (epochBatches e).map List.length = chunkSizes n (min 500 n)) :
    (runUpTo ops stopEpochs epochBatches
        (initState g0 og0 d0 od0 (L := L)) (stopEpochs + 1)).1.trickSize
      = some (n % 500) ∧
    (fitTrain ops stopEpochs epochBatches g0 og0 d0 od0).2
      = some PyErr.shapeMismatch := by
  have hmin : min 500 n = 500 := Nat.min_eq_left (Nat.le_of_lt hn)
  have hdiv : 1 ≤ n / 500 := (Nat.one_le_div_iff (by norm_num)).mpr (Nat.le_of_lt hn)
  have hchunk : chunkSizes n (min 500 n)
      = List.replicate (n / 500) 500 ++ [n % 500] := by
    rw [hmin]
    simp [chunkSizes, hrm]
  have hbound : ∀ e, e ≤ stopEpochs + 1 → e < stopEpochs * 3 := by
    intro e he
    omega
  have hlast : ∀ e ≤ stopEpochs, ∀ d : Option ℕ,
      (epochBatches e).foldl (fun _ b => some b.length) d = some (n % 500) := by
    intro e he d
    have hmap := hsizes e (hbound e (Nat.le_succ_of_le he))
    rw [hchunk] at hmap
    have : (epochBatches e).foldl (fun _ b => some b.length) d
        = ((epochBatches e).map List.length).foldl (fun _ m => some m) d := by
      rw [List.foldl_map]
    rw [this, hmap, List.foldl_append]
    simp
  obtain ⟨h1, h2, h3⟩ := runUpTo_grow_phase ops stopEpochs epochBatches
    g0 og0 d0 od0 (n % 500) hlast (stopEpochs + 1) (Nat.le_refl _)
  rcases h3 with h3 | h3
  · exact absurd h3 (Nat.succ_ne_zero stopEpochs)
  refine ⟨h3, ?_⟩
  have hsf : (runUpTo ops stopEpochs epochBatches
      (initState g0 og0 d0 od0 (L := L)) (stopEpochs + 1)).1.stopFlag = true := by
    rw [h2]
    simp
  have hfirst : ∃ b rest, epochBatches (stopEpochs + 1) = b :: rest
      ∧ b.length = 500 := by
    have hmap := hsizes (stopEpochs + 1) (hbound (stopEpochs + 1) (Nat.le_refl _))
    rw [hchunk] at hmap
    obtain ⟨q, hq⟩ := Nat.exists_eq_add_of_le hdiv
    rw [Nat.add_comm] at hq
    rw [hq] at hmap
    cases hb : epochBatches (stopEpochs + 1) with
    | nil => rw [hb] at hmap; simp [List.replicate_succ] at hmap
    | cons b rest =>
      rw [hb] at hmap
      rw [List.replicate_succ] at hmap
      simp only [List.map_cons, List.cons_append] at hmap
      exact ⟨b, rest, rfl, (List.cons.injEq _ _ _ _).mp hmap |>.1⟩
  obtain ⟨b, rest, hb, hblen⟩ := hfirst
  have herr : (runUpTo ops stopEpochs epochBatches
      (initState g0 og0 d0 od0 (L := L)) (stopEpochs + 1 + 1)).2
      = some PyErr.shapeMismatch := by
    have hstep : runUpTo ops stopEpochs epochBatches
        (initState g0 og0 d0 od0 (L := L)) (stopEpochs + 1 + 1)
      = match runUpTo ops stopEpochs epochBatches
            (initState g0 og0 d0 od0 (L := L)) (stopEpochs + 1) with
        | (st, none) => runEpoch ops stopEpochs (stopEpochs + 1) st
            (epochBatches (stopEpochs + 1))
        | (st, some err) => (st, some err) := rfl
    rw [hstep]
    cases hr : runUpTo ops stopEpochs epochBatches
        (initState g0 og0 d0 od0 (L := L)) (stopEpochs + 1) with
    | mk st err =>
      rw [hr] at h1 h3 hsf
      simp only at h1 h3 hsf
      cases err with
      | some er => simp at h1
      | none =>
        have hrb := runBatches_frozen_first_err ops (stopEpochs + 1) 0 st b rest
          hsf (n % 500) h3 (by rw [hblen]; omega)
        simp only [runEpoch, hb]
        cases hrbr : runBatches ops (stopEpochs + 1) 0 st (b :: rest) with
        | mk st2 err2 =>
          rw [hrbr] at hrb
          simp only at hrb
          cases err2 with
          | none => simp at hrb
          | some er2 => simpa using hrb
  have hle : stopEpochs + 1 + 1 ≤ stopEpochs * 3 := by omega
  exact (runUpTo_err_le ops stopEpochs epochBatches _ (stopEpochs + 1 + 1)
    PyErr.shapeMismatch herr (stopEpochs * 3) hle).1

/-- Batches a shuffled `DataLoader` yields per epoch on 501 samples with
`batch_size = 500`: one full batch, then one remainder sample. -/
def batches501 : ℕ → List (List Unit) := fun _ => [List.replicate 500 (), [()]]

set_option maxRecDepth 40000 in
/-- Witness for C3: with `stop_epochs = 1` and 501 samples, `fit` raises
the `BCELoss` size mismatch in the first frozen-phase batch. -/
theorem stale_trick_labels_abort_witness :
    1 ≤ 1 ∧ 500 < 501 ∧ 501 % 500 ≠ 0 ∧
    (fitTrain unitOps 1 batches501 0 () 0 ()).2 = some PyErr.shapeMismatch :=
  ⟨by decide, by decide, by decide,
   (stale_trick_labels_abort unitOps 1 501 batches501 0 () 0 ()
     (by decide) (by decide) (by decide) (by decide)).2⟩

/-! Training-history bookkeeping: one appended scalar per metric per
batch. -/

theorem runBatches_hist (ops : TorchOps α GP DP OG OD L) (e : ℕ) :
    ∀ (bs : List (List α)) (bi : ℕ) (st : TState GP DP OG OD L),
      (runBatches ops e bi st bs).2 = none →
      (runBatches ops e bi st bs).1.dHist.length = st.dHist.length + bs.length ∧
      (runBatches ops e bi st bs).1.gHist.length = st.gHist.length + bs.length := by
  intro bs
  induction bs with
  | nil => intro bi st _; simp [runBatches]
  | cons b rest ih =>
    intro bi st hok
    simp only [runBatches] at hok ⊢
    cases hpb : processBatch ops e bi st b with
    | mk st1 err =>
      rw [hpb] at hok
      cases err with
      | some er => simp at hok
      | none =>
        have hok' : (runBatches ops e (bi + 1) st1 rest).2 = none := hok
        have hp := processBatch_hist_ok ops e bi st b (by rw [hpb])
        rw [hpb] at hp
        have hp1 : st1.dHist.length = st.dHist.length + 1 := hp.1
        have hp2 : st1.gHist.length = st.gHist.length + 1 := hp.2
        obtain ⟨ihd, ihg⟩ := ih (bi + 1) st1 hok'
        constructor
        · show (runBatches ops e (bi + 1) st1 rest).1.dHist.length
            = st.dHist.length + (b :: rest).length
          rw [ihd, hp1, List.length_cons]
          omega
        · show (runBatches ops e (bi + 1) st1 rest).1.gHist.length
            = st.gHist.length + (b :: rest).length
          rw [ihg, hp2, List.length_cons]
          omega

theorem runEpoch_hist (ops : TorchOps α GP DP OG OD L) (stopEpochs e : ℕ)
    (st : TState GP DP OG OD L) (batches : List (List α))
    (hok : (runEpoch ops stopEpochs e st batches).2 = none) :
    (runEpoch ops stopEpochs e st batches).1.dHist.length
      = st.dHist.length + batches.length ∧
    (runEpoch ops stopEpochs e st batches).1.gHist.length
      = st.gHist.length + batches.length := by
  simp only [runEpoch] at hok ⊢
  cases hrb : runBatches ops e 0 st batches with
  | mk st1 err =>
    rw [hrb] at hok
    cases err with
    | some er => simp at hok
    | none =>
      have h := runBatches_hist ops e batches 0 st (by rw [hrb])
      rw [hrb] at h
      exact ⟨h.1, h.2⟩

theorem runUpTo_hist (ops : TorchOps α GP DP OG OD L) (stopEpochs : ℕ)
    (epochBatches : ℕ → List (List α)) (g0 : GP) (og0 : OG) (d0 : DP) (od0 : OD) :
    ∀ k, (runUpTo ops stopEpochs epochBatches
        (initState g0 og0 d0 od0 (L := L)) k).2 = none →
      (runUpTo ops stopEpochs epochBatches
          (initState g0 og0 d0 od0 (L := L)) k).1.dHist.length
        = ∑ e in Finset.range k, (epochBatches e).length ∧
      (runUpTo ops stopEpochs epochBatches
          (initState g0 og0 d0 od0 (L := L)) k).1.gHist.length
        = ∑ e in Finset.range k, (epochBatches e).length := by
  intro k
  induction k with
  | zero => intro _; simp [runUpTo, initState]
  | succ k ih =>
    intro hok
    have hk := runUpTo_ok_of_succ ops stopEpochs epochBatches _ k hok
    obtain ⟨ihd, ihg⟩ := ih hk
    simp only [runUpTo] at hok ⊢
    cases hr : runUpTo ops stopEpochs epochBatches
        (initState g0 og0 d0 od0 (L := L)) k with
    | mk st err =>
      rw [hr] at hok ihd ihg
      cases err with
      | some er => simp at hok
      | none =>
        have ihd' : st.dHist.length = ∑ e in Finset.range k, (epochBatches e).length := ihd
        have ihg' : st.gHist.length = ∑ e in Finset.range k, (epochBatches e).length := ihg
        have hok' : (runEpoch ops stopEpochs k st (epochBatches k)).2 = none := hok
        have he := runEpoch_hist ops stopEpochs k st (epochBatches k) hok'
        rw [Finset.sum_range_succ]
        constructor
        · show (runEpoch ops stopEpochs k st (epochBatches k)).1.dHist.length
            = (∑ e in Finset.range k, (epochBatches e).length) + (epochBatches k).length
          rw [he.1, ihd']
        · show (runEpoch ops stopEpochs k st (epochBatches k)).1.gHist.length
            = (∑ e in Finset.range k, (epochBatches e).length) + (epochBatches k).length
          rw [he.2, ihg']

theorem chunkSizes_length (n bs : ℕ) (hbs : 0 < bs) :
    (chunkSizes n bs).length = (n + bs - 1) / bs := by
  obtain ⟨q, r, hrlt, hn⟩ : ∃ q r, r < bs ∧ n = bs * q + r :=
    ⟨n / bs, n % bs, Nat.mod_lt n hbs, by rw [Nat.div_add_mod]⟩
  subst hn
  have hq : (bs * q + r) / bs = q + r / bs := Nat.mul_add_div hbs q r
  have hm : (bs * q + r) % bs = r % bs := Nat.mul_add_mod bs q r
  by_cases hr : r = 0
  · subst hr
    have h1 : bs * q + 0 + bs - 1 = bs * q + (bs - 1) := by omega
    simp only [chunkSizes, hm, Nat.zero_mod, if_pos rfl, h1]
    rw [Nat.mul_add_div hbs q (bs - 1), Nat.div_eq_of_lt (by omega : bs - 1 < bs)]
    simp
    exact Nat.mul_div_cancel_left q hbs
  · have hrm : r % bs = r := Nat.mod_eq_of_lt hrlt
    have h1 : bs * q + r + bs - 1 = bs * (q + 1) + (r - 1) := by
      have h2 : bs * (q + 1) = bs * q + bs := by ring
      omega
    have h3 : (bs * q + r) % bs ≠ 0 := by rw [hm, hrm]; exact hr
    simp only [chunkSizes, if_neg h3, h1]
    rw [Nat.mul_add_div hbs (q + 1) (r - 1),
      Nat.div_eq_of_lt (by omega : r - 1 < bs)]
    simp [Nat.div_eq_of_lt hrlt]
    rw [hq, Nat.div_eq_of_lt hrlt]
    simp

/-- Claim C5.  For every `fit` run that completes on `n` samples (batch
sizes as a shuffled `DataLoader` with `batch_size = min 500 n` delivers
them), both `train_history` sequences have length exactly
`(stop_epochs * 3) * ceil(n / min 500 n)`: each metric receives exactly
one appended scalar per batch. -/
theorem train_history_lengths (ops : TorchOps α GP DP OG OD L)
    (stopEpochs n : ℕ) (epochBatches : ℕ → List (List α))
    (g0 : GP) (og0 : OG) (d0 : DP) (od0 : OD)
    (hn : 1 ≤ n)
    (hsizes : ∀ e < stopEpochs * 3,
      (epochBatches e).map List.length = chunkSizes n (min 500 n))
    (hok : (fitTrain ops stopEpochs epochBatches g0 og0 d0 od0).2 = none) :
    (fitTrain ops stopEpochs epochBatches g0 og0 d0 od0).1.dHist.length
      = stopEpochs * 3 * ((n + min 500 n - 1) / min 500 n) ∧
    (fitTrain ops stopEpochs epochBatches g0 og0 d0 od0).1.gHist.length
      = stopEpochs * 3 * ((n + min 500 n - 1) / min 500 n) := by
  have hbs : 0 < min 500 n := by omega
  have hlen : ∀ e < stopEpochs * 3,
      (epochBatches e).length = (n + min 500 n - 1) / min 500 n := by
    intro e he
    have hc := congrArg List.length (hsizes e he)
    rw [List.length_map] at hc
    rw [hc, chunkSizes_length n _ hbs]
  obtain ⟨hd, hg⟩ := runUpTo_hist ops stopEpochs epochBatches g0 og0 d0 od0
    (stopEpochs * 3) hok
  have hsum : ∑ e in Finset.range (stopEpochs * 3), (epochBatches e).length
      = stopEpochs * 3 * ((n + min 500 n - 1) / min 500 n) := by
    rw [Finset.sum_congr rfl
      (fun e he => hlen e (Finset.mem_range.mp he))]
    rw [Finset.sum_const, Finset.card_range, smul_eq_mul]
  exact ⟨by rw [fitTrain, hd, hsum], by rw [fitTrain, hg, hsum]⟩

/-- Witness for C5: `stop_epochs = 1` on a single-sample dataset gives a
completing run with three entries in each loss history. -/
theorem train_history_lengths_witness :
    (1 : ℕ) ≤ 1 ∧
    (fitTrain unitOps 1 oneBatchEach 0 () 0 ()).2 = none ∧
    (fitTrain unitOps 1 oneBatchEach 0 () 0 ()).1.dHist.length
      = 1 * 3 * ((1 + min 500 1 - 1) / min 500 1) ∧
    (fitTrain unitOps 1 oneBatchEach 0 () 0 ()).1.gHist.length
      = 1 * 3 * ((1 + min 500 1 - 1) / min 500 1) :=
  ⟨by decide, by decide,
   (train_history_lengths unitOps 1 1 oneBatchEach 0 () 0 ()
     (by decide) (by decide) (by decide)).1,
   (train_history_lengths unitOps 1 1 oneBatchEach 0 () 0 ()
     (by decide) (by decide) (by decide)).2⟩

/-! Forward-pass facts about the two networks. -/

theorem sigmoid_pos (t : ℝ) : 0 < sigmoid t := by
  unfold sigmoid
  have h := Real.exp_pos (-t)
  positivity

theorem sigmoid_lt_one (t : ℝ) : sigmoid t < 1 := by
  unfold sigmoid
  have h := Real.exp_pos (-t)
  rw [div_lt_one (by linarith)]
  linarith

theorem linear_ok (W : List (List ℝ)) (b x : List ℝ)
    (hw : ∀ row ∈ W, row.length = x.length) :
    linear W b x = .ok (List.zipWith (fun row bi => dot row x + bi) W b) := by
  unfold linear
  rw [if_pos]
  rw [List.all_eq_true]
  intro row hr
  exact beq_iff_eq.mpr (hw row hr)

theorem disc_forward_ok (p : DiscParams) (d h : ℕ) (hwf : wfDisc d h p)
    (x : List ℝ) (hx : x.length = d) :
    ∃ v : ℝ, Discriminator.forward p x = .ok [sigmoid v] := by
  obtain ⟨hW1, hW1r, hb1, hW2, hW2r, hb2⟩ := hwf
  have h1 := linear_ok p.W1 p.b1 x (fun row hr => by rw [hx]; exact hW1r row hr)
  have hy1len : (List.zipWith (fun row bi => dot row x + bi) p.W1 p.b1).length = h := by
    rw [List.length_zipWith, hW1, hb1, Nat.min_self]
  have h2 := linear_ok p.W2 p.b2
    (reluV (List.zipWith (fun row bi => dot row x + bi) p.W1 p.b1))
    (fun row hr => by
      rw [reluV, List.length_map, hy1len]
      exact hW2r row hr)
  have hy2len : (List.zipWith (fun row bi =>
      dot row (reluV (List.zipWith (fun row bi => dot row x + bi) p.W1 p.b1)) + bi)
      p.W2 p.b2).length = 1 := by
    rw [List.length_zipWith, hW2, hb2, Nat.min_self]
  obtain ⟨v, hv⟩ := List.length_eq_one.mp hy2len
  refine ⟨v, ?_⟩
  unfold Discriminator.forward
  rw [h1]
  simp only
  rw [h2, hv]
  rfl

/-- Claim C9.  For every well-shaped Discriminator and every batch of
rows of the training dimensionality, `Discriminator.forward` succeeds
with output shape `(batch, 1)` and every entry strictly between 0 and 1
(the final activation is the saturating sigmoid). -/
theorem discriminator_output_unit_interval (p : DiscParams) (d h : ℕ)
    (hwf : wfDisc d h p) (X : List (List ℝ))
    (hX : ∀ row ∈ X, row.length = d) :
    ∃ out, Discriminator.forwardBatch p X = .ok out ∧
      out.length = X.length ∧
      ∀ row ∈ out, row.length = 1 ∧ ∀ y ∈ row, 0 < y ∧ y < 1 := by
  induction X with
  | nil => exact ⟨[], rfl, rfl, by simp⟩
  | cons x xs ih =>
    obtain ⟨v, hv⟩ := disc_forward_ok p d h hwf x (hX x (List.mem_cons_self x xs))
    obtain ⟨out, hout, hlen, hall⟩ :=
      ih (fun r hr => hX r (List.mem_cons_of_mem _ hr))
    refine ⟨[sigmoid v] :: out, ?_, by simp [hlen], ?_⟩
    · show mapE (Discriminator.forward p) (x :: xs) = .ok ([sigmoid v] :: out)
      rw [mapE, hv]
      have hout' : mapE (Discriminator.forward p) xs = .ok out := hout
      rw [hout']
    · intro row hr
      rcases List.mem_cons.mp hr with hr | hr
      · subst hr
        refine ⟨rfl, ?_⟩
        intro y hy
        rcases List.mem_singleton.mp hy with rfl
        exact ⟨sigmoid_pos v, sigmoid_lt_one v⟩
      · exact hall row hr

/-- Concrete well-shaped Discriminator for the C9 witness (`d = 1`,
`h = ceil(sqrt 1) = 1`). -/
def discEx1 : DiscParams := ⟨[[1]], [0], [[1]], [0]⟩

theorem discEx1_wf : wfDisc 1 1 discEx1 := by
  refine ⟨rfl, ?_, rfl, rfl, ?_, rfl⟩ <;>
    · intro row hr
      rcases List.mem_singleton.mp hr with rfl
      rfl

/-- Witness for C9 on a concrete one-feature input. -/
theorem discriminator_output_unit_interval_witness :
    wfDisc 1 1 discEx1 ∧
    (∃ out, Discriminator.forwardBatch discEx1 [[(0 : ℝ)]] = .ok out ∧
      out.length = ([[(0 : ℝ)]] : List (List ℝ)).length ∧
      ∀ row ∈ out, row.length = 1 ∧ ∀ y ∈ row, 0 < y ∧ y < 1) :=
  ⟨discEx1_wf,
   discriminator_output_unit_interval discEx1 1 1 discEx1_wf [[(0 : ℝ)]]
     (fun row hr => by rcases List.mem_singleton.mp hr with rfl; rfl)⟩

/-! The Generator with identity weight matrices: zero biases and zero
input give zero output, but the freshly constructed network of the code
keeps the default random `nn.Linear` biases, which `nn.init.eye_` never
touches, so an all-zero latent batch does not map to zero in general. -/

theorem dot_replicate_zero (r : List ℝ) : ∀ k, dot r (List.replicate k 0) = 0 := by
  induction r with
  | nil => intro k; simp [dot]
  | cons a r ih =>
    intro k
    cases k with
    | zero => simp [dot]
    | succ k =>
      have := ih k
      simp only [List.replicate_succ, dot, List.zipWith_cons_cons, List.sum_cons]
      simp only [dot] at this
      rw [this]
      ring

theorem idMat_row_length (d : ℕ) : ∀ row ∈ idMat d, row.length = d := by
  intro row hr
  obtain ⟨i, _, rfl⟩ := List.mem_map.mp hr
  simp

theorem idMat_length (d : ℕ) : (idMat d).length = d := by simp [idMat]

theorem zipWith_dot_zero (x : List ℝ) (hx : ∀ r, dot r x = 0) :
    ∀ (W : List (List ℝ)) (k : ℕ), W.length = k →
      List.zipWith (fun row bi => dot row x + bi) W (List.replicate k 0)
        = List.replicate k 0 := by
  intro W
  induction W with
  | nil => intro k hk; subst hk; simp
  | cons row W ih =>
    intro k hk
    cases k with
    | zero => simp at hk
    | succ k =>
      have hk' : W.length = k := by simpa using hk
      simp only [List.replicate_succ, List.zipWith_cons_cons]
      rw [hx row, ih k hk']
      simp

theorem reluV_replicate_zero (k : ℕ) :
    reluV (List.replicate k 0) = List.replicate k 0 := by
  simp [reluV, List.map_replicate]

/-- Claim C4, amended.  With both weight matrices set to the identity by
`nn.init.eye_` AND both bias vectors zero, the Generator maps an
all-zero latent batch to an all-zero output batch.  The zero-bias
condition is necessary: the code's constructor leaves the default random
`nn.Linear` biases in place, and with a nonzero bias the output of a
freshly constructed identity-weight Generator on zero input is nonzero
(see the counterexample). -/
theorem generator_identity_zero (d m : ℕ) :
    Generator.forwardBatch
      ⟨idMat d, List.replicate d 0, idMat d, List.replicate d 0⟩
      (List.replicate m (List.replicate d 0))
      = .ok (List.replicate m (List.replicate d 0)) := by
  have hdotz : ∀ r, dot r (List.replicate d 0) = 0 :=
    fun r => dot_replicate_zero r d
  have hlin : linear (idMat d) (List.replicate d 0) (List.replicate d 0)
      = .ok (List.replicate d 0) := by
    rw [linear_ok (idMat d) (List.replicate d 0) (List.replicate d 0)
        (fun row hr => by
          rw [List.length_replicate]
          exact idMat_row_length d row hr)]
    rw [zipWith_dot_zero (List.replicate d 0) hdotz (idMat d) d (idMat_length d)]
  have hrow : Generator.forward
      ⟨idMat d, List.replicate d 0, idMat d, List.replicate d 0⟩
      (List.replicate d 0) = .ok (List.replicate d 0) := by
    unfold Generator.forward
    simp only
    rw [hlin]
    simp only
    rw [reluV_replicate_zero, hlin]
    simp only
    rw [reluV_replicate_zero]
  induction m with
  | zero => rfl
  | succ m ih =>
    show mapE _ (List.replicate (m + 1) (List.replicate d 0)) = _
    rw [List.replicate_succ, mapE, hrow]
    have ih' : mapE (Generator.forward
        ⟨idMat d, List.replicate d 0, idMat d, List.replicate d 0⟩)
        (List.replicate m (List.replicate d 0))
        = .ok (List.replicate m (List.replicate d 0)) := ih
    rw [ih']

/-- Claim C4, counterexample to the claim as stated: an identity-weight
Generator whose first-layer bias is 1 (a value the untouched random
bias initialisation can take) maps the all-zero one-row batch to a
nonzero batch. -/
theorem generator_identity_zero_counterexample :
    Generator.forwardBatch ⟨idMat 1, [1], idMat 1, [0]⟩ [[0]]
      ≠ .ok [[0]] := by
  have h1 : idMat 1 = [[1]] := by
    simp [idMat, List.range_succ]
  simp only [Generator.forwardBatch, mapE, Generator.forward, h1, linear,
    reluV, dot]
  norm_num

theorem linear_err (W : List (List ℝ)) (b x : List ℝ) (row : List ℝ)
    (hrow : row ∈ W) (hne : row.length ≠ x.length) :
    linear W b x = .error PyErr.matmulShape := by
  unfold linear
  rw [if_neg]
  intro hall
  rw [List.all_eq_true] at hall
  exact hne (beq_iff_eq.mp (hall row hrow))

/-- Claim C6, amended.  `decision_function` on a fitted detector rejects
an input whose feature count differs from the training dimensionality,
but the rejection is the matmul shape error raised by the first linear
layer inside the Discriminator forward pass, not a pre-forward shape
validation: `check_array` never compares the feature count against the
training data. -/
theorem score_dim_mismatch_matmul_error (p : DiscParams) (d h d2 : ℕ)
    (hwf : wfDisc d h p) (hh : 0 < h)
    (x0 : List ℝ) (rest : List (List ℝ))
    (hx0 : x0.length = d2) (hrest : ∀ row ∈ rest, row.length = d2)
    (hd2 : 0 < d2) (hne : d2 ≠ d) :
    decision_function (some p) (x0 :: rest) = .error PyErr.matmulShape := by
  obtain ⟨hW1, hW1r, hb1, hW2, hW2r, hb2⟩ := hwf
  have hca : checkArray (x0 :: rest) = true := by
    unfold checkArray
    rw [Bool.and_eq_true]
    constructor
    · rw [hx0]
      exact decide_eq_true hd2
    · rw [List.all_eq_true]
      intro row hr
      exact beq_iff_eq.mpr (by rw [hrest row hr, hx0])
  cases hW : p.W1 with
  | nil =>
    rw [hW] at hW1
    simp at hW1
    omega
  | cons r W' =>
    have hr : r ∈ p.W1 := by rw [hW]; exact List.mem_cons_self r W'
    have hrl : r.length = d := hW1r r hr
    have hlerr : linear p.W1 p.b1 x0 = .error PyErr.matmulShape :=
      linear_err p.W1 p.b1 x0 r hr
        (by rw [hrl, hx0]; exact fun hc => hne hc.symm)
    have hfwd : Discriminator.forward p x0 = .error PyErr.matmulShape := by
      unfold Discriminator.forward
      rw [hlerr]
    have hmap : mapE (Discriminator.forward p) (x0 :: rest)
        = .error PyErr.matmulShape := by
      rw [mapE, hfwd]
    show (if checkArray (x0 :: rest) = true then discRavel p (x0 :: rest)
      else Except.error PyErr.invalidInput) = Except.error PyErr.matmulShape
    rw [if_pos hca]
    unfold discRavel Discriminator.forwardBatch
    rw [hmap]

/-- Concrete fitted Discriminator trained on two features, for C6. -/
def discEx2 : DiscParams := ⟨[[1, 1]], [0], [[1]], [0]⟩

theorem discEx2_wf : wfDisc 2 1 discEx2 := by
  refine ⟨rfl, ?_, rfl, rfl, ?_, rfl⟩ <;>
    · intro row hr
      rcases List.mem_singleton.mp hr with rfl
      rfl

/-- Claim C6, counterexample to the claim as stated: scoring a one-feature
input on a detector fitted on two features passes `check_array` untouched
and fails only inside the forward pass with the matmul shape error, not
with a pre-forward validation error. -/
theorem score_dim_mismatch_counterexample :
    decision_function (some discEx2) [[0]] = .error PyErr.matmulShape ∧
    decision_function (some discEx2) [[0]] ≠ .error PyErr.invalidInput := by
  have h : decision_function (some discEx2) [[0]] = .error PyErr.matmulShape := rfl
  exact ⟨h, by rw [h]; simp⟩

/-- Witness for the amended C6 on the same concrete mismatch. -/
theorem score_dim_mismatch_matmul_error_witness :
    wfDisc 2 1 discEx2 ∧ (1 : ℕ) ≠ 2 ∧
    decision_function (some discEx2) [[(0 : ℝ)]] = .error PyErr.matmulShape :=
  ⟨discEx2_wf, by decide,
   score_dim_mismatch_matmul_error discEx2 2 1 1 discEx2_wf (by decide)
     [(0 : ℝ)] [] rfl (by simp) (by decide) (by decide)⟩

/-! The discriminator parameters only ever change through `dUpdate`, so a
shape invariant preserved by the optimizer step survives the whole run. -/

theorem processBatch_disc_inv (ops : TorchOps α GP DP OG OD L) (P : DP → Prop)
    (hP : ∀ (e bi : ℕ) (od : OD) (dp : DP) (gp : GP) (b : List α),
      P dp → P (ops.dUpdate e bi (od, dp) gp b).2)
    (e bi : ℕ) (st : TState GP DP OG OD L) (batch : List α)
    (hst : P st.disc) : P (processBatch ops e bi st batch).1.disc := by
  have hd := hP e bi st.discOpt st.disc st.gen batch hst
  by_cases hs : st.stopFlag = false
  · simpa [processBatch, hs] using hd
  · simp only [processBatch, if_neg hs]
    cases st.trickSize with
    | none => simpa using hd
    | some t => by_cases hb : batch.length = t <;> simpa [hb] using hd

theorem runBatches_disc_inv (ops : TorchOps α GP DP OG OD L) (P : DP → Prop)
    (hP : ∀ (e bi : ℕ) (od : OD) (dp : DP) (gp : GP) (b : List α),
      P dp → P (ops.dUpdate e bi (od, dp) gp b).2) (e : ℕ) :
    ∀ (bs : List (List α)) (bi : ℕ) (st : TState GP DP OG OD L),
      P st.disc → P (runBatches ops e bi st bs).1.disc := by
  intro bs
  induction bs with
  | nil => intro bi st hst; simpa [runBatches] using hst
  | cons b rest ih =>
    intro bi st hst
    have h1 := processBatch_disc_inv ops P hP e bi st b hst
    simp only [runBatches]
    cases hpb : processBatch ops e bi st b with
    | mk st1 err =>
      rw [hpb] at h1
      cases err with
      | none => exact ih (bi + 1) st1 h1
      | some er => exact h1

theorem runUpTo_disc_inv (ops : TorchOps α GP DP OG OD L) (P : DP → Prop)
    (hP : ∀ (e bi : ℕ) (od : OD) (dp : DP) (gp : GP) (b : List α),
      P dp → P (ops.dUpdate e bi (od, dp) gp b).2)
    (stopEpochs : ℕ) (epochBatches : ℕ → List (List α))
    (g0 : GP) (og0 : OG) (d0 : DP) (od0 : OD) (hd0 : P d0) :
    ∀ k, P (runUpTo ops stopEpochs epochBatches
        (initState g0 og0 d0 od0 (L := L)) k).1.disc := by
  intro k
  induction k with
  | zero => exact hd0
  | succ k ih =>
    simp only [runUpTo]
    cases hr : runUpTo ops stopEpochs epochBatches
        (initState g0 og0 d0 od0 (L := L)) k with
    | mk st err =>
      rw [hr] at ih
      cases err with
      | some er => exact ih
      | none =>
        have h := runBatches_disc_inv ops P hP k (epochBatches k) 0 st ih
        simp only [runEpoch]
        cases hrb : runBatches ops k 0 st (epochBatches k) with
        | mk st1 err1 =>
          rw [hrb] at h
          cases err1 with
          | none => exact h
          | some er1 => exact h

theorem mapE_ok {β γ : Type} (f : β → Except PyErr γ) :
    ∀ (l : List β) (ys : List γ), mapE f l = .ok ys →
      ys.length = l.length ∧ ∀ y ∈ ys, ∃ x ∈ l, f x = .ok y := by
  intro l
  induction l with
  | nil =>
    intro ys hys
    rw [mapE] at hys
    cases hys
    simp
  | cons b bs ih =>
    intro ys hys
    rw [mapE] at hys
    cases hfb : f b with
    | error e => rw [hfb] at hys; simp at hys
    | ok c =>
      rw [hfb] at hys
      simp only at hys
      cases hmr : mapE f bs with
      | error e => rw [hmr] at hys; simp at hys
      | ok cs =>
        rw [hmr] at hys
        simp only at hys
        cases hys
        obtain ⟨hlen, hall⟩ := ih cs hmr
        refine ⟨by simp [hlen], ?_⟩
        intro y hy
        rcases List.mem_cons.mp hy with hy | hy
        · exact ⟨b, List.mem_cons_self b bs, by rw [hfb, hy]⟩
        · obtain ⟨x, hx, hfx⟩ := hall y hy
          exact ⟨x, List.mem_cons_of_mem b hx, hfx⟩

theorem linear_ok_shape (W : List (List ℝ)) (b x y : List ℝ)
    (hok : linear W b x = .ok y) : y.length = min W.length b.length := by
  unfold linear at hok
  by_cases hg : (W.all fun row => row.length == x.length) = true
  · rw [if_pos hg] at hok
    cases hok
    exact List.length_zipWith _ _ _
  · rw [if_neg hg] at hok
    simp at hok

theorem disc_forward_ok_len (p : DiscParams) (d h : ℕ) (hwf : wfDisc d h p)
    (x ys : List ℝ) (hok : Discriminator.forward p x = .ok ys) :
    ys.length = 1 := by
  obtain ⟨hW1, hW1r, hb1, hW2, hW2r, hb2⟩ := hwf
  unfold Discriminator.forward at hok
  cases h1 : linear p.W1 p.b1 x with
  | error e => rw [h1] at hok; simp at hok
  | ok y1 =>
    rw [h1] at hok
    simp only at hok
    cases h2 : linear p.W2 p.b2 (reluV y1) with
    | error e => rw [h2] at hok; simp at hok
    | ok y2 =>
      rw [h2] at hok
      simp only at hok
      cases hok
      rw [List.length_map]
      rw [linear_ok_shape p.W2 p.b2 (reluV y1) y2 h2, hW2, hb2]
      rfl

theorem flatten_singletons {γ : Type} :
    ∀ (rows : List (List γ)), (∀ r ∈ rows, r.length = 1) →
      rows.flatten.length = rows.length := by
  intro rows
  induction rows with
  | nil => intro _; rfl
  | cons r rest ih =>
    intro hall
    rw [List.flatten_cons, List.length_append,
      hall r (List.mem_cons_self r rest),
      ih (fun q hq => hall q (List.mem_cons_of_mem r hq))]
    simp [Nat.add_comm]

/-- Claim C8.  For every valid `(n, d)` input (`n >= 1`, `d >= 1`) on
which `fit` completes, the stored `decision_scores_` vector — one
Discriminator forward pass over the whole dataset after all epochs,
ravelled — has length exactly `n`.  The discriminator is constructed
with hidden width `ceil(sqrt n)` and the SGD step preserves the layer
shapes. -/
theorem fit_scores_length {OG OD : Type}
    (ops : TorchOps (List ℝ) GenParams DiscParams OG OD ℝ)
    (stopEpochs n d : ℕ) (epochBatches : ℕ → List (List (List ℝ)))
    (g0 : GenParams) (og0 : OG) (d0 : DiscParams) (od0 : OD)
    (X : List (List ℝ))
    (hwf0 : wfDisc d (ceilSqrt n) d0)
    (hpres : ∀ (e bi : ℕ) (od : OD) (dp : DiscParams) (gp : GenParams)
      (b : List (List ℝ)), wfDisc d (ceilSqrt n) dp →
      wfDisc d (ceilSqrt n) (ops.dUpdate e bi (od, dp) gp b).2)
    (hn : X.length = n) (hn1 : 1 ≤ n) (hd : 1 ≤ d)
    (out : List ℝ × DiscParams)
    (hok : fitModel ops stopEpochs epochBatches g0 og0 d0 od0 X = .ok out) :
    out.1.length = n := by
  unfold fitModel at hok
  by_cases hca : checkArray X = true
  · rw [if_pos hca] at hok
    cases hft : fitTrain ops stopEpochs epochBatches g0 og0 d0 od0 with
    | mk st err =>
      rw [hft] at hok
      cases err with
      | some er => simp at hok
      | none =>
        simp only at hok
        have hwf : wfDisc d (ceilSqrt n) st.disc := by
          have h := runUpTo_disc_inv ops (wfDisc d (ceilSqrt n)) hpres
            stopEpochs epochBatches g0 og0 d0 od0 hwf0 (stopEpochs * 3)
          rw [show runUpTo ops stopEpochs epochBatches
              (initState g0 og0 d0 od0) (stopEpochs * 3)
              = fitTrain ops stopEpochs epochBatches g0 og0 d0 od0 from rfl,
            hft] at h
          exact h
        cases hdr : discRavel st.disc X with
        | error e => rw [hdr] at hok; simp at hok
        | ok scores =>
          rw [hdr] at hok
          simp only at hok
          cases hok
          unfold discRavel at hdr
          cases hmr : Discriminator.forwardBatch st.disc X with
          | error e => rw [hmr] at hdr; simp at hdr
          | ok rows =>
            rw [hmr] at hdr
            simp only at hdr
            cases hdr
            obtain ⟨hlen, hall⟩ := mapE_ok (Discriminator.forward st.disc) X rows hmr
            show rows.flatten.length = n
            rw [flatten_singletons rows ?hones, hlen, hn]
            case hones =>
              intro r hr
              obtain ⟨x, _, hfx⟩ := hall r hr
              exact disc_forward_ok_len st.disc d (ceilSqrt n) hwf x r hfx
  · rw [if_neg hca] at hok
    simp at hok

/-- Concrete framework capabilities over the real networks for the
`fitModel` witnesses: the black-box SGD step leaves parameters in place
and losses are zero. -/
def realIdOps : TorchOps (List ℝ) GenParams DiscParams Unit Unit ℝ where
  dUpdate := fun _ _ p _ _ => p
  gUpdate := fun _ _ p _ _ => p
  dLossVal := fun _ _ _ _ _ => 0
  gLossVal := fun _ _ _ _ _ => 0

/-- Concrete Generator (identity weights) for the `fitModel` witnesses. -/
def genEx1 : GenParams := ⟨[[1]], [0], [[1]], [0]⟩

/-- Single-sample training set and its single-batch epochs. -/
def Xex : List (List ℝ) := [[0]]

/-- One batch per epoch containing the single sample of `Xex`. -/
def ebEx : ℕ → List (List (List ℝ)) := fun _ => [[[0]]]

theorem ceilSqrt_one : ceilSqrt 1 = 1 := by decide

theorem discEx1_wf_sqrt : wfDisc 1 (ceilSqrt 1) discEx1 := by
  rw [ceilSqrt_one]
  exact discEx1_wf

/-- Witness for C8 on a completing one-sample, one-feature run. -/
theorem fit_scores_length_witness :
    ∃ out, fitModel realIdOps 1 ebEx genEx1 () discEx1 () Xex = Except.ok out
      ∧ out.1.length = 1 :=
  ⟨_, rfl,
   fit_scores_length realIdOps 1 1 1 ebEx genEx1 () discEx1 () Xex
     discEx1_wf_sqrt (fun _ _ _ _ _ _ hw => hw) rfl (by decide) (by decide)
     _ rfl⟩

/-- Claim C10.  Whenever `fit` completes, calling `decision_function` on
the very training data immediately afterwards reproduces the stored
score vector exactly: both are the same Discriminator forward pass of the
same trained parameters over the same input. -/
theorem score_reproduces_fit {OG OD : Type}
    (ops : TorchOps (List ℝ) GenParams DiscParams OG OD ℝ)
    (stopEpochs : ℕ) (epochBatches : ℕ → List (List (List ℝ)))
    (g0 : GenParams) (og0 : OG) (d0 : DiscParams) (od0 : OD)
    (X : List (List ℝ)) (out : List ℝ × DiscParams)
    (hok : fitModel ops stopEpochs epochBatches g0 og0 d0 od0 X = .ok out) :
    decision_function (some out.2) X = .ok out.1 := by
  unfold fitModel at hok
  by_cases hca : checkArray X = true
  · rw [if_pos hca] at hok
    cases hft : fitTrain ops stopEpochs epochBatches g0 og0 d0 od0 with
    | mk st err =>
      rw [hft] at hok
      cases err with
      | some er => simp at hok
      | none =>
        simp only at hok
        cases hdr : discRavel st.disc X with
        | error e => rw [hdr] at hok; simp at hok
        | ok scores =>
          rw [hdr] at hok
          simp only at hok
          cases hok
          show (if checkArray X = true then discRavel st.disc X
            else Except.error PyErr.invalidInput) = Except.ok scores
          rw [if_pos hca]
          exact hdr
  · rw [if_neg hca] at hok
    simp at hok

/-- Witness for C10 on the same completing concrete run. -/
theorem score_reproduces_fit_witness :
    ∃ out, fitModel realIdOps 1 ebEx genEx1 () discEx1 () Xex = Except.ok out
      ∧ decision_function (some out.2) Xex = Except.ok out.1 :=
  ⟨_, rfl,
   score_reproduces_fit realIdOps 1 ebEx genEx1 () discEx1 () Xex _ rfl⟩

/-! Errors escaping the scoring path are matmul shape errors, never the
not-fitted error: only `check_is_fitted` can raise that, and it only
tests the presence of the `discriminator` attribute. -/

theorem linear_error_code (W : List (List ℝ)) (b x : List ℝ) (e : PyErr)
    (h : linear W b x = .error e) : e = PyErr.matmulShape := by
  unfold linear at h
  by_cases hg : (W.all fun row => row.length == x.length) = true
  · rw [if_pos hg] at h
    simp at h
  · rw [if_neg hg] at h
    cases h
    rfl

theorem disc_forward_error_code (p : DiscParams) (x : List ℝ) (e : PyErr)
    (h : Discriminator.forward p x = .error e) : e = PyErr.matmulShape := by
  unfold Discriminator.forward at h
  cases h1 : linear p.W1 p.b1 x with
  | error e1 =>
    rw [h1] at h
    simp only at h
    cases h
    exact linear_error_code p.W1 p.b1 x e h1
  | ok y1 =>
    rw [h1] at h
    simp only at h
    cases h2 : linear p.W2 p.b2 (reluV y1) with
    | error e2 =>
      rw [h2] at h
      simp only at h
      cases h
      exact linear_error_code p.W2 p.b2 (reluV y1) e h2
    | ok y2 =>
      rw [h2] at h
      simp at h

theorem mapE_error {β γ : Type} (f : β → Except PyErr γ) :
    ∀ (l : List β) (e : PyErr), mapE f l = .error e →
      ∃ x ∈ l, f x = .error e := by
  intro l
  induction l with
  | nil => intro e he; rw [mapE] at he; simp at he
  | cons b bs ih =>
    intro e he
    rw [mapE] at he
    cases hfb : f b with
    | error e1 =>
      rw [hfb] at he
      simp only at he
      cases he
      exact ⟨b, List.mem_cons_self b bs, hfb⟩
    | ok c =>
      rw [hfb] at he
      simp only at he
      cases hmr : mapE f bs with
      | error e2 =>
        rw [hmr] at he
        simp only at he
        cases he
        obtain ⟨x, hx, hfx⟩ := ih e hmr
        exact ⟨x, List.mem_cons_of_mem b hx, hfx⟩
      | ok cs =>
        rw [hmr] at he
        simp at he

theorem discRavel_error_code (p : DiscParams) (X : List (List ℝ)) (e : PyErr)
    (h : discRavel p X = .error e) : e = PyErr.matmulShape := by
  unfold discRavel at h
  cases hfb : Discriminator.forwardBatch p X with
  | error e1 =>
    rw [hfb] at h
    simp only at h
    cases h
    obtain ⟨x, _, hfx⟩ := mapE_error (Discriminator.forward p) X e hfb
    exact disc_forward_error_code p x e hfx
  | ok rows =>
    rw [hfb] at h
    simp at h

/-- Claim C7, amended.  `check_is_fitted(self, ['discriminator'])` tests
only the presence of the `discriminator` attribute, so `decision_function`
fails with the not-fitted error exactly on instances where the attribute
is absent — where no `fit` call ever reached the network construction at
line 135 — and then it is an error, never a default score vector.  It
does not fail with the not-fitted error merely because no `fit` has
succeeded: `fit` assigns the attribute before its training loop, so after
a `fit` call that passed `check_array` and then aborted mid-training the
attribute is set and `decision_function` proceeds to score with the
partially trained discriminator (any error it can still raise is the
in-forward matmul shape error or input validation, never not-fitted). -/
theorem score_not_fitted_iff_no_discriminator :
    (∀ X : List (List ℝ), decision_function none X = .error PyErr.notFitted) ∧
    (∀ (OG OD : Type) (ops : TorchOps (List ℝ) GenParams DiscParams OG OD ℝ)
        (stopEpochs : ℕ) (epochBatches : ℕ → List (List (List ℝ)))
        (g0 : GenParams) (og0 : OG) (d0 : DiscParams) (od0 : OD)
        (X : List (List ℝ)),
      decision_function
          (some (discAfterFit ops stopEpochs epochBatches g0 og0 d0 od0)) X
        ≠ .error PyErr.notFitted) := by
  refine ⟨fun _ => rfl, ?_⟩
  intro OG OD ops stopEpochs epochBatches g0 og0 d0 od0 X hcontra
  have h2 : (if checkArray X = true
      then discRavel (discAfterFit ops stopEpochs epochBatches g0 og0 d0 od0) X
      else Except.error PyErr.invalidInput) = Except.error PyErr.notFitted :=
    hcontra
  by_cases hca : checkArray X = true
  · rw [if_pos hca] at h2
    exact PyErr.noConfusion
      (discRavel_error_code _ X PyErr.notFitted h2)
  · rw [if_neg hca] at h2
    simp at h2

/-- Per-epoch batches of a 501-sample one-feature dataset, real-typed. -/
def batches501R : ℕ → List (List (List ℝ)) := fun _ => [List.replicate 500 [0], [[0]]]

set_option maxRecDepth 200000 in
/-- Claim C7, counterexample to the claim as stated: with `stop_epochs =
1` and 501 one-feature samples, `fit` aborts mid-training on the
`BCELoss` size mismatch, so `fit` has not succeeded on this instance;
yet the `discriminator` attribute was assigned before the training loop,
so calling `decision_function` afterwards returns a score vector instead
of failing with the not-fitted error. -/
theorem score_before_fit_counterexample :
    (fitTrain realIdOps 1 batches501R genEx1 () discEx1 ()).2
      = some PyErr.shapeMismatch ∧
    ∃ scores, decision_function
        (some (discAfterFit realIdOps 1 batches501R genEx1 () discEx1 ())) Xex
      = Except.ok scores := by
  constructor
  · rfl
  · have hdisc : discAfterFit realIdOps 1 batches501R genEx1 () discEx1 ()
        = discEx1 :=
      runUpTo_disc_inv realIdOps (fun dp => dp = discEx1)
        (fun _ _ _ _ _ _ h => h) 1 batches501R genEx1 () discEx1 () rfl (1 * 3)
    rw [hdisc]
    exact ⟨[sigmoid (dot [1] (reluV [dot [1] [0] + 0]) + 0)], rfl⟩

/-- Witness for the amended C7: the not-fitted error on an absent
attribute, and its absence on the attribute left by a concrete aborted
`fit` call. -/
theorem score_not_fitted_iff_no_discriminator_witness :
    decision_function none Xex = Except.error PyErr.notFitted ∧
    decision_function
        (some (discAfterFit realIdOps 1 batches501R genEx1 () discEx1 ())) Xex
      ≠ Except.error PyErr.notFitted :=
  ⟨score_not_fitted_iff_no_discriminator.1 Xex,
   score_not_fitted_iff_no_discriminator.2 Unit Unit realIdOps 1 batches501R
     genEx1 () discEx1 () Xex⟩

end SoGaal
